import Mathlib

/-!
Verification of the healthcare-ai lab-report pipeline.

The Python modules `reference_ranges.py`, `utils.py`, `safety.py`,
`symptom_engine.py` and `extraction.py` are shallowly embedded below.
Lab values are modelled as exact rationals, strings of the report as
`String` / `List Char`, fallible results as `Option`.
-/

/-! ### utils shared by several modules -/

/-- Embedding of Python `str.lower()` (ASCII case mapping). -/
def py_lower (s : String) : String := ⟨s.data.map Char.toLower⟩

/-! ### reference_ranges.py -/

/-- Embedding of `get_range(analyte, gender)`: returns `(low, high, unit)`.
The `HEMOGLOBIN_RANGES` dict has exactly the keys `male ↦ (13, 17)` and
`female ↦ (12, 15)`, so the membership test becomes an if-chain; `if gender:`
in Python is false for both `None` and the empty string. -/
def get_range (analyte : String) (gender : Option String) :
    Option (ℚ × ℚ × String) :=
  let key := py_lower analyte
  if key = "hemoglobin" then
    let unit := "g/dL"
    match gender with
    | some g =>
      if g = "" then some (12, 17, unit)
      else if py_lower g = "male" then some (13, 17, unit)
      else if py_lower g = "female" then some (12, 15, unit)
      else some (12, 17, unit)
    | none => some (12, 17, unit)
  else if key = "mcv" then some (80, 100, "fL")
  else if key = "mch" then some (27, 33, "pg")
  else if key = "mchc" then some (32, 36, "g/dL")
  else none

/-- Embedding of `classify_value(analyte, value, gender)`. -/
def classify_value (analyte : String) (value : Option ℚ)
    (gender : Option String) : Option String :=
  match value with
  | none => none
  | some v =>
    match get_range analyte gender with
    | none => none
    | some (low, high, _) =>
      if v < low then some "low"
      else if v > high then some "high"
      else some "normal"

/-- One row of the structured view built by `get_lab_statuses`. -/
structure LabStatus where
  value : Option ℚ
  unit : Option String
  status : Option String
  ref_low : Option ℚ
  ref_high : Option ℚ
  ref_unit : Option String
deriving DecidableEq, Repr

/-- An entry of the `labs` mapping: `payload` may itself be absent/falsy. -/
structure LabPayload where
  value : Option ℚ
  unit : Option String
deriving DecidableEq, Repr

/-- Embedding of `get_lab_statuses(labs, gender)`; the dict becomes an
association list, preserving iteration order. -/
def get_lab_statuses (labs : List (String × Option LabPayload))
    (gender : Option String) : List (String × LabStatus) :=
  labs.map (fun e =>
    let analyte := e.1
    let value := e.2.bind (·.value)
    let unit := e.2.bind (·.unit)
    let status := classify_value analyte value gender
    match get_range analyte gender with
    | some (low, high, ref_unit) =>
      (analyte, ⟨value, unit, status, some low, some high, some ref_unit⟩)
    | none =>
      (analyte, ⟨value, unit, status, none, none, unit⟩))

/-! ### Substring matching (Python's `in` operator on strings) -/

/-- Char-list test: does the text start with the pattern? -/
def leadsWith : List Char → List Char → Bool
  | [], _ => true
  | _ :: _, [] => false
  | a :: as, b :: bs => a = b && leadsWith as bs

/-- Char-list test: does the pattern occur contiguously in the text? -/
def hasSub (needle : List Char) : List Char → Bool
  | [] => leadsWith needle []
  | b :: bs => leadsWith needle (b :: bs) || hasSub needle bs

/-- Embedding of Python's `needle in haystack` on strings. -/
def str_contains (needle haystack : String) : Bool :=
  hasSub needle.data haystack.data

/-- `sorted(set(l))` then `", ".join(...)` for Python strings. -/
def join_sorted_unique (l : List String) : String :=
  String.intercalate ", " (List.insertionSort (· ≤ ·) l.dedup)

/-! ### safety.py -/

/-- The `RED_FLAG_PHRASES` table, in source order. -/
def RED_FLAG_PHRASES : List (String × List String) :=
  [("chest pain", ["chest pain", "pressure in chest", "tight chest"]),
   ("fainting", ["fainting", "passed out", "loss of consciousness", "blackout"]),
   ("severe shortness of breath",
     ["severe shortness of breath", "struggling to breathe",
      "cannot catch my breath", "difficulty breathing"]),
   ("uncontrolled bleeding",
     ["uncontrolled bleeding", "bleeding that will not stop",
      "very heavy bleeding"])]

/-- Result record of `check_red_flags`. -/
structure SafetyAssessment where
  has_red_flags : Bool
  matched_labels : List String
  urgent_message : Option String
deriving DecidableEq, Repr

/-- The templated urgent advisory, parameterised by the joined label list. -/
def urgent_message_text (unique : String) : String :=
  "Some of the symptoms you described (for example: " ++ unique ++
  ") can sometimes be associated with medical emergencies. " ++
  "This tool cannot assess emergencies or provide real-time clinical triage. " ++
  "If you are experiencing these symptoms now, please seek urgent in-person medical care " ++
  "or contact your local emergency services immediately."

/-- Embedding of `check_red_flags(symptom_text)`; `(symptom_text or \x22\x22)`
makes a `None` input behave as the empty string.  The source loop appends a
label on its first matching phrase and breaks, which is a filter in table
order. -/
def check_red_flags (symptom_text : Option String) : SafetyAssessment :=
  let text := py_lower (symptom_text.getD "")
  let matched := (RED_FLAG_PHRASES.filter
    (fun lp => lp.2.any (fun p => str_contains p text))).map (·.1)
  let has_red_flags := decide (0 < matched.length)
  let sorted_unique := List.insertionSort (· ≤ ·) matched.dedup
  let urgent_message :=
    if has_red_flags then
      some (urgent_message_text (String.intercalate ", " sorted_unique))
    else none
  ⟨has_red_flags, sorted_unique, urgent_message⟩

/-! ### symptom_engine.py -/

/-- The fixed fatigue keyword list, in source order. -/
def FATIGUE_KEYWORDS : List String :=
  ["fatigue", "tired", "tiredness", "exhausted", "exhaustion",
   "weak", "weakness", "low energy"]

/-- Result record of `analyze_symptoms`. -/
structure SymptomCorrelation where
  summary : Option String
  relevance : Option String
  matched_symptoms : Option String
deriving DecidableEq, Repr

/-- Summary used when low hemoglobin coincides with fatigue keywords. -/
def hemoglobin_low_summary : String :=
  "The combination of a hemoglobin value classified here as below the usual " ++
  "reference range and reported fatigue-like symptoms may be relevant. " ++
  "This does not indicate a diagnosis. Only a healthcare professional can " ++
  "assess how these findings relate to your overall health."

/-- Generic correlation-uncertain summary (fatigue keywords, no strong rule). -/
def correlation_uncertain_summary : String :=
  "Some symptoms you described, such as fatigue or low energy, are sometimes " ++
  "mentioned in relation to blood count changes. This tool cannot determine " ++
  "whether your symptoms are related to your lab values. A clinician can review " ++
  "both together for you."

/-- Summary used when no rule-based link was identified. -/
def no_rule_link_summary : String :=
  "No specific rule-based links between the symptoms described and the extracted " ++
  "lab values were identified. This does not rule out any condition. Any persistent " ++
  "or concerning symptoms should be discussed with a healthcare professional."

/-- Embedding of `analyze_symptoms(symptom_text, lab_statuses)`.  The dict
becomes an association list; `lab_statuses.get(\x22hemoglobin\x22, \x7b\x7d).get(...)`
becomes a lookup followed by `Option.bind`. -/
def analyze_symptoms (symptom_text : String)
    (lab_statuses : List (String × LabStatus)) : SymptomCorrelation :=
  if symptom_text = "" then ⟨none, none, none⟩
  else
    let text := py_lower symptom_text
    let matched_symptoms := FATIGUE_KEYWORDS.filter (fun kw => str_contains kw text)
    let hemoglobin_info := lab_statuses.lookup "hemoglobin"
    let hemo_status := hemoglobin_info.bind (·.status)
    let hemo_value := hemoglobin_info.bind (·.value)
    if hemo_status = some "low" ∧ matched_symptoms ≠ [] then
      let relevance : String :=
        match hemo_value with
        | some v => if v < 8 then "High" else "Moderate"
        | none => "Moderate"
      ⟨some hemoglobin_low_summary, some relevance,
        some (join_sorted_unique matched_symptoms)⟩
    else if matched_symptoms ≠ [] then
      ⟨some correlation_uncertain_summary, some "Low",
        some (join_sorted_unique matched_symptoms)⟩
    else
      ⟨some no_rule_link_summary, some "Low", none⟩

/-! ### extraction.py, text acquisition (lines 160–176) -/

/-- Text plus the tag of the path that produced it. -/
structure ExtractionOutcome where
  text : String
  method : String
deriving DecidableEq, Repr

/-- Embedding of the acquisition logic of `extract_report_data`:
`primary_result` is `some t` when `_extract_text_pdfplumber` returned `t`
(already cleaned) and `none` when it raised; `ocr_text` is what
`_extract_text_ocr` returns (empty on total failure, never raising). -/
def acquire_text (primary_result : Option String) (ocr_text : String) :
    ExtractionOutcome :=
  let text := primary_result.getD ""
  let method := match primary_result with
    | some _ => "pdfplumber"
    | none => "none"
  if text.length < 40 then
    if ocr_text.length > text.length then ⟨ocr_text, "ocr"⟩
    else ⟨text, method⟩
  else ⟨text, method⟩

/-! ### utils.py, clean_text -/

/-- The ASCII whitespace characters stripped by Python's `str.strip()`. -/
def isPySpace (c : Char) : Bool :=
  c = ' ' || c = '\t' || c = '\n' || c = '\r' || c = '\x0b' || c = '\x0c'

/-- `text.replace("\x00", " ")`. -/
def replace_nul (l : List Char) : List Char :=
  l.map (fun c => if c = '\x00' then ' ' else c)

/-- `re.sub(r"[ \t]+", " ", text)`: collapse each run of spaces/tabs to one
space; the flag records whether the previous character was part of a run. -/
def collapse_spaces_aux : Bool → List Char → List Char
  | _, [] => []
  | prev, c :: rest =>
    if c = ' ' ∨ c = '\t' then
      if prev then collapse_spaces_aux true rest
      else ' ' :: collapse_spaces_aux true rest
    else c :: collapse_spaces_aux false rest

/-- Collapse space/tab runs, starting outside a run. -/
def collapse_spaces (l : List Char) : List Char := collapse_spaces_aux false l

/-- `re.sub(r"\r\n|\r", "\n", text)`. -/
def normalize_newlines : List Char → List Char
  | [] => []
  | '\r' :: '\n' :: rest => '\n' :: normalize_newlines rest
  | '\r' :: rest => '\n' :: normalize_newlines rest
  | c :: rest => c :: normalize_newlines rest

/-- `re.sub(r"\n{3,}", "\n\n", text)`: keep at most the first two newlines of
each run; `k` counts the newlines of the current run already consumed. -/
def collapse_newlines_aux : Nat → List Char → List Char
  | _, [] => []
  | k, c :: rest =>
    if c = '\n' then
      if k < 2 then '\n' :: collapse_newlines_aux (k + 1) rest
      else collapse_newlines_aux (k + 1) rest
    else c :: collapse_newlines_aux 0 rest

/-- Collapse newline runs of length three or more down to two. -/
def collapse_newlines (l : List Char) : List Char := collapse_newlines_aux 0 l

/-- Drop leading whitespace (`str.lstrip()` half of `strip`). -/
def strip_leading (l : List Char) : List Char := l.dropWhile isPySpace

/-- Drop trailing whitespace (`str.rstrip()` half of `strip`). -/
def strip_trailing (l : List Char) : List Char :=
  (l.reverse.dropWhile isPySpace).reverse

/-- `str.strip()`. -/
def py_strip (l : List Char) : List Char := strip_trailing (strip_leading l)

/-- Embedding of `clean_text(text)` on char lists, in source order:
nul replacement, space/tab collapsing, line-ending unification, blank-line
collapsing, strip; `if not text` short-circuits the empty string. -/
def clean_text_list (l : List Char) : List Char :=
  if l = [] then []
  else
    py_strip (collapse_newlines (normalize_newlines
      (collapse_spaces (replace_nul l))))

/-- Embedding of `clean_text(text)`. -/
def clean_text (s : String) : String := ⟨clean_text_list s.data⟩

/-! ### utils.py, safe_float -/

/-- Decimal value of a digit run. -/
def digitsToNat (l : List Char) : Nat :=
  l.foldl (fun n c => 10 * n + (c.toNat - 48)) 0

/-- The fraction digits of the optional `(?:\.\d+)?` group: a nonempty digit
run right after a dot (an empty run is not part of the match and contributes
nothing to the value). -/
def frac_digits : List Char → List Char
  | '.' :: rest => rest.takeWhile Char.isDigit
  | _ => []

/-- Leftmost match of `-?\d+(?:\.\d+)?` in the style of `re.search`:
sign, integer digits, fraction digits.  A `-` not followed by a digit cannot
start a match, so the scan moves on. -/
def find_number : List Char → Option (Bool × List Char × List Char)
  | [] => none
  | c :: rest =>
    if c.isDigit then
      some (false, c :: rest.takeWhile Char.isDigit,
        frac_digits (rest.dropWhile Char.isDigit))
    else if c = '-' then
      match rest with
      | d :: _ =>
        if d.isDigit then
          some (true, rest.takeWhile Char.isDigit,
            frac_digits (rest.dropWhile Char.isDigit))
        else find_number rest
      | [] => none
    else find_number rest

/-- Exact rational value of a matched numeric token. -/
def number_value (sign : Bool) (ip fp : List Char) : ℚ :=
  let mag : ℚ := (digitsToNat ip : ℚ) + (digitsToNat fp : ℚ) / ((10 : ℚ) ^ fp.length)
  if sign then -mag else mag

/-- Embedding of `safe_float` on the char list of the input string: strip,
replace every comma by a dot, search the number pattern, convert; a failed
search yields `none` rather than an error. -/
def safe_float_list (l : List Char) : Option ℚ :=
  let cleaned := py_strip l
  let cleaned := cleaned.map (fun c => if c = ',' then '.' else c)
  match find_number cleaned with
  | none => none
  | some (sg, ip, fp) => some (number_value sg ip fp)

/-- Embedding of `safe_float(value)`; a `None` input yields `None`. -/
def safe_float : Option String → Option ℚ
  | none => none
  | some s => safe_float_list s.data

/-- State predicate for space/tab collapsing being a no-op: no two adjacent
spaces, and no leading space when `prev` says a run just ended. -/
def spacedOk : Bool → List Char → Bool
  | _, [] => true
  | prev, c :: rest => !(prev && c == ' ') && spacedOk (c == ' ') rest

/-- State predicate for newline collapsing being a no-op: every newline run
is bounded by two, `k` newlines having just been seen. -/
def nlOk : Nat → List Char → Bool
  | _, [] => true
  | k, c :: rest =>
    if c = '\n' then decide (k < 2) && nlOk (k + 1) rest
    else nlOk 0 rest

/-! ### Theorems -/

/-- `get_range` can only return one of six concrete triples (or `none`). -/
theorem get_range_cases (analyte : String) (gender : Option String) :
    get_range analyte gender = none ∨
    get_range analyte gender = some (13, 17, "g/dL") ∨
    get_range analyte gender = some (12, 15, "g/dL") ∨
    get_range analyte gender = some (12, 17, "g/dL") ∨
    get_range analyte gender = some (80, 100, "fL") ∨
    get_range analyte gender = some (27, 33, "pg") ∨
    get_range analyte gender = some (32, 36, "g/dL") := by
  unfold get_range
  cases gender with
  | none => dsimp only; split_ifs <;> simp
  | some g => dsimp only; split_ifs <;> simp

/-- The defined ranges all satisfy `low < high`. -/
theorem get_range_lt {analyte : String} {gender : Option String}
    {low high : ℚ} {unit : String}
    (h : get_range analyte gender = some (low, high, unit)) : low < high := by
  rcases get_range_cases analyte gender with hc | hc | hc | hc | hc | hc | hc <;>
    rw [hc] at h <;>
    simp only [Option.some.injEq, Prod.mk.injEq, reduceCtorEq] at h <;>
    obtain ⟨h1, h2, -⟩ := h <;> subst h1 <;> subst h2 <;> norm_num

/-- On a non-null value and a defined range, `classify_value` reduces to the
two-sided comparison of the source. -/
theorem classify_value_eq {analyte : String} {gender : Option String}
    {low high : ℚ} {u : String}
    (h : get_range analyte gender = some (low, high, u)) (v : ℚ) :
    classify_value analyte (some v) gender =
      (if v < low then some "low"
       else if v > high then some "high" else some "normal") := by
  unfold classify_value
  dsimp only
  rw [h]

/-- A range is found exactly for the four analytes of the table
(after Python's `analyte.lower()`). -/
theorem get_range_none_iff (analyte : String) (gender : Option String) :
    get_range analyte gender = none ↔
      py_lower analyte ∉ (["hemoglobin", "mcv", "mch", "mchc"] : List String) := by
  unfold get_range
  cases gender with
  | none => dsimp only; split_ifs <;> simp_all
  | some g => dsimp only; split_ifs <;> simp_all

/-- Classifying a null value yields a null status. -/
theorem classify_value_none_value (analyte : String) (gender : Option String) :
    classify_value analyte none gender = none := rfl

/-- Classifying with no applicable range yields a null status. -/
theorem classify_value_none_range (analyte : String) (value : Option ℚ)
    (gender : Option String) (h : get_range analyte gender = none) :
    classify_value analyte value gender = none := by
  unfold classify_value
  cases value with
  | none => rfl
  | some v => rw [h]

/-- C1: for every analyte with a defined range and every gender,
`classify_value` is a closed-interval test on non-null values: `low` iff
`v < low`, `high` iff `v > high`, `normal` iff `low ≤ v ≤ high`; boundary
values classify `normal`, one unit below `low` is `low`, one above `high`
is `high`. -/
theorem classify_value_closed_interval
    (analyte : String) (gender : Option String) (low high : ℚ) (unit : String)
    (h : get_range analyte gender = some (low, high, unit)) (v : ℚ) :
    (classify_value analyte (some v) gender = some "low" ↔ v < low) ∧
    (classify_value analyte (some v) gender = some "high" ↔ v > high) ∧
    (classify_value analyte (some v) gender = some "normal" ↔
      low ≤ v ∧ v ≤ high) ∧
    classify_value analyte (some low) gender = some "normal" ∧
    classify_value analyte (some high) gender = some "normal" ∧
    classify_value analyte (some (low - 1)) gender = some "low" ∧
    classify_value analyte (some (high + 1)) gender = some "high" := by
  have hlh : low < high := get_range_lt h
  rw [classify_value_eq h v, classify_value_eq h low, classify_value_eq h high,
    classify_value_eq h (low - 1), classify_value_eq h (high + 1)]
  refine ⟨?_, ?_, ?_, ?_, ?_, ?_, ?_⟩
  · constructor
    · intro he
      split_ifs at he with h1 h2 <;> simp_all
    · intro hv; simp [hv]
  · constructor
    · intro he
      split_ifs at he with h1 h2 <;> simp_all
    · intro hv
      have h1 : ¬ v < low := by push_neg; linarith
      simp [h1, hv]
  · constructor
    · intro he
      split_ifs at he with h1 h2
      · simp at he
      · simp at he
      · exact ⟨not_lt.mp h1, not_lt.mp h2⟩
    · intro ⟨h1, h2⟩
      have hnl : ¬ v < low := not_lt.mpr h1
      have hnh : ¬ v > high := not_lt.mpr h2
      simp [hnl, hnh]
  · simp [not_lt.mpr (le_of_lt hlh), lt_irrefl]
  · have h1 : ¬ high < low := not_lt.mpr (le_of_lt hlh)
    simp [h1, lt_irrefl]
  · have : low - 1 < low := by linarith
    simp [this]
  · have h1 : ¬ high + 1 < low := by push_neg; linarith
    have h2 : high + 1 > high := by linarith
    simp [h1, h2]

/-- Witness for C1: hemoglobin with no gender has range 12–17 g/dL, and 12,
17 classify `normal` while 11 classifies `low` and 18 classifies `high`. -/
theorem classify_value_closed_interval_witness :
    classify_value "hemoglobin" (some 12) none = some "normal" ∧
    classify_value "hemoglobin" (some 17) none = some "normal" ∧
    classify_value "hemoglobin" (some 11) none = some "low" ∧
    classify_value "hemoglobin" (some 18) none = some "high" := by
  have h := classify_value_closed_interval "hemoglobin" none 12 17 "g/dL"
    (by rfl) 0
  exact ⟨h.2.2.2.1, h.2.2.2.2.1, by
      have := (classify_value_closed_interval "hemoglobin" none 12 17 "g/dL"
        (by rfl) 11).1.mpr (by norm_num)
      exact this, by
      have := (classify_value_closed_interval "hemoglobin" none 12 17 "g/dL"
        (by rfl) 18).2.1.mpr (by norm_num)
      exact this⟩

/-- C2: in every record produced by `get_lab_statuses`, `status` is non-null
only when both the value is non-null and a reference range was found; a null
value or an analyte with no defined range (any analyte whose lowercasing is
not hemoglobin/mcv/mch/mchc) gets a null status. -/
theorem get_lab_statuses_status_inv
    (labs : List (String × Option LabPayload)) (gender : Option String)
    (e : String × LabStatus) (he : e ∈ get_lab_statuses labs gender) :
    (e.2.status ≠ none → e.2.value ≠ none ∧ get_range e.1 gender ≠ none) ∧
    (e.2.value = none → e.2.status = none) ∧
    (get_range e.1 gender = none → e.2.status = none) ∧
    (get_range e.1 gender = none ↔
      py_lower e.1 ∉ (["hemoglobin", "mcv", "mch", "mchc"] : List String)) := by
  obtain ⟨a, _, rfl⟩ := List.mem_map.mp he
  rcases hr : get_range a.1 gender with - | ⟨low, high, ru⟩ <;>
    simp only [hr]
  · refine ⟨?_, ?_, ?_, ?_⟩
    · intro hs
      exact absurd (classify_value_none_range a.1 (a.2.bind (·.value)) gender hr) hs
    · intro _
      exact classify_value_none_range a.1 (a.2.bind (·.value)) gender hr
    · intro _
      exact classify_value_none_range a.1 (a.2.bind (·.value)) gender hr
    · simpa [hr] using get_range_none_iff a.1 gender
  · refine ⟨?_, ?_, ?_, ?_⟩
    · intro hs
      refine ⟨?_, by simp [hr]⟩
      intro hv
      rw [hv, classify_value_none_value] at hs
      exact hs rfl
    · intro hv
      rw [hv, classify_value_none_value]
    · intro hnone
      exact absurd hnone (by simp)
    · simpa [hr] using get_range_none_iff a.1 gender

/-- Witness for C2: for a labs map holding hemoglobin without a value, an
unknown analyte with a value, and mcv with a value, the produced statuses obey
the invariant: only mcv gets a non-null status. -/
theorem get_lab_statuses_status_inv_witness :
    (get_lab_statuses
      [("hemoglobin", some ⟨none, some "g/dL"⟩),
       ("ferritin", some ⟨some 100, some "ng/mL"⟩),
       ("mcv", some ⟨some 95, some "fL"⟩)] (some "female")).map
        (fun e => (e.1, e.2.value, e.2.status)) =
      [("hemoglobin", none, none),
       ("ferritin", some 100, none),
       ("mcv", some 95, some "normal")] ∧
    get_range "ferritin" (some "female") = none := by
  have h := get_lab_statuses_status_inv
    [("hemoglobin", some ⟨none, some "g/dL"⟩),
     ("ferritin", some ⟨some 100, some "ng/mL"⟩),
     ("mcv", some ⟨some 95, some "fL"⟩)] (some "female")
    ("ferritin", ⟨some 100, some "ng/mL", none, none, none, some "ng/mL"⟩)
    (by decide)
  exact ⟨by decide, (h.2.2.2).mpr (by decide)⟩

/-- C6: the hemoglobin range is gender-conditioned: (13, 17) for `male`,
(12, 15) for `female`, and the generic wider (12, 17) when gender is null,
empty, or unrecognized — always in g/dL; hence hemoglobin 9.5 with gender
`female` classifies `low`. -/
theorem get_range_hemoglobin_gender :
    get_range "hemoglobin" (some "male") = some (13, 17, "g/dL") ∧
    get_range "hemoglobin" (some "female") = some (12, 15, "g/dL") ∧
    get_range "hemoglobin" none = some (12, 17, "g/dL") ∧
    (∀ g : String, py_lower g ≠ "male" → py_lower g ≠ "female" →
      get_range "hemoglobin" (some g) = some (12, 17, "g/dL")) ∧
    classify_value "hemoglobin" (some (19 / 2 : ℚ)) (some "female") =
      some "low" := by
  have hr : get_range "hemoglobin" (some "female") = some (12, 15, "g/dL") :=
    by decide
  refine ⟨by decide, by decide, by decide, ?_, ?_⟩
  swap
  · rw [classify_value_eq hr]
    norm_num
  intro g h1 h2
  unfold get_range
  dsimp only
  rw [if_pos (by decide)]
  split_ifs <;> simp_all

/-- Witness for C6: an unrecognized gender string gets the generic range. -/
theorem get_range_hemoglobin_gender_witness :
    get_range "hemoglobin" (some "Other") = some (12, 17, "g/dL") :=
  get_range_hemoglobin_gender.2.2.2.1 "Other" (by decide) (by decide)

/-- C5: a label is matched iff one of its phrases occurs (case-insensitively)
in the text; `has_red_flags` is true iff some label matched; `matched_labels`
is sorted and de-duplicated; `urgent_message` is the templated advisory naming
the matched labels exactly when `has_red_flags` is true, and null otherwise. -/
theorem check_red_flags_spec (s : String) :
    (∀ label : String,
      label ∈ (check_red_flags (some s)).matched_labels ↔
        ∃ pr ∈ RED_FLAG_PHRASES, pr.1 = label ∧
          ∃ p ∈ pr.2, str_contains p (py_lower s) = true) ∧
    ((check_red_flags (some s)).has_red_flags = true ↔
      ∃ pr ∈ RED_FLAG_PHRASES, ∃ p ∈ pr.2, str_contains p (py_lower s) = true) ∧
    (check_red_flags (some s)).matched_labels.Pairwise (· ≤ ·) ∧
    (check_red_flags (some s)).matched_labels.Nodup ∧
    ((check_red_flags (some s)).has_red_flags = true →
      (check_red_flags (some s)).urgent_message =
        some (urgent_message_text
          (String.intercalate ", " (check_red_flags (some s)).matched_labels))) ∧
    ((check_red_flags (some s)).has_red_flags = false →
      (check_red_flags (some s)).urgent_message = none) := by
  unfold check_red_flags
  dsimp only [Option.getD]
  refine ⟨?_, ?_, ?_, ?_, ?_, ?_⟩
  · intro label
    rw [(List.perm_insertionSort _ _).mem_iff, List.mem_dedup, List.mem_map]
    constructor
    · rintro ⟨pr, hpr, rfl⟩
      obtain ⟨hmem, hany⟩ := List.mem_filter.mp hpr
      exact ⟨pr, hmem, rfl, List.any_eq_true.mp hany⟩
    · rintro ⟨pr, hmem, rfl, p, hp, hc⟩
      exact ⟨pr, List.mem_filter.mpr ⟨hmem, List.any_eq_true.mpr ⟨p, hp, hc⟩⟩, rfl⟩
  · rw [decide_eq_true_iff]
    constructor
    · intro hlen
      obtain ⟨x, hx⟩ := List.exists_mem_of_length_pos hlen
      obtain ⟨pr, hpr, -⟩ := List.mem_map.mp hx
      obtain ⟨hmem, hany⟩ := List.mem_filter.mp hpr
      exact ⟨pr, hmem, List.any_eq_true.mp hany⟩
    · rintro ⟨pr, hmem, p, hp, hc⟩
      have : pr.1 ∈ (RED_FLAG_PHRASES.filter
          (fun lp => lp.2.any (fun q => str_contains q (py_lower s)))).map (·.1) :=
        List.mem_map.mpr
          ⟨pr, List.mem_filter.mpr ⟨hmem, List.any_eq_true.mpr ⟨p, hp, hc⟩⟩, rfl⟩
      exact List.length_pos.mpr (List.ne_nil_of_mem this)
  · exact List.sorted_insertionSort _ _
  · exact (List.perm_insertionSort _ _).nodup_iff.mpr (List.nodup_dedup _)
  · intro h
    rw [if_pos h]
  · intro h
    simp only [h]
    rfl

/-- Witness for C5: for the text "I have chest pain", the label `chest pain`
is matched, `has_red_flags` is true, and the advisory is present. -/
theorem check_red_flags_spec_witness :
    (check_red_flags (some "I have chest pain")).has_red_flags = true ∧
    "chest pain" ∈ (check_red_flags (some "I have chest pain")).matched_labels := by
  have h := check_red_flags_spec "I have chest pain"
  refine ⟨h.2.1.mpr ?_, (h.1 "chest pain").mpr ?_⟩
  · exact ⟨("chest pain", ["chest pain", "pressure in chest", "tight chest"]),
      by decide, "chest pain", by decide, by decide⟩
  · exact ⟨("chest pain", ["chest pain", "pressure in chest", "tight chest"]),
      by decide, rfl, "chest pain", by decide, by decide⟩

/-- C10: on a null or empty symptom text, `check_red_flags` returns the safe
default: no red flags, empty label list, null urgent message. -/
theorem check_red_flags_empty :
    check_red_flags none = ⟨false, [], none⟩ ∧
    check_red_flags (some "") = ⟨false, [], none⟩ := by decide

/-- C4: `analyze_symptoms` evaluates its rule chain in order, first applicable
rule winning: empty text gives all-null; low hemoglobin plus a fatigue keyword
gives the hemoglobin summary with relevance High iff the hemoglobin value is
below 8 (Moderate otherwise); a fatigue keyword alone gives relevance Low with
the correlation-uncertain summary; otherwise relevance Low with the
no-rule-link summary and null matched symptoms. -/
theorem analyze_symptoms_rule_chain (symptom_text : String)
    (lab_statuses : List (String × LabStatus)) :
    (symptom_text = "" →
      analyze_symptoms symptom_text lab_statuses = ⟨none, none, none⟩) ∧
    (symptom_text ≠ "" →
      (lab_statuses.lookup "hemoglobin").bind (·.status) = some "low" →
      FATIGUE_KEYWORDS.filter
          (fun kw => str_contains kw (py_lower symptom_text)) ≠ [] →
      (analyze_symptoms symptom_text lab_statuses).summary =
          some hemoglobin_low_summary ∧
      (analyze_symptoms symptom_text lab_statuses).matched_symptoms =
          some (join_sorted_unique (FATIGUE_KEYWORDS.filter
            (fun kw => str_contains kw (py_lower symptom_text)))) ∧
      ((∃ v : ℚ, (lab_statuses.lookup "hemoglobin").bind (·.value) = some v ∧
          v < 8) →
        (analyze_symptoms symptom_text lab_statuses).relevance = some "High") ∧
      ((∀ v : ℚ, (lab_statuses.lookup "hemoglobin").bind (·.value) = some v →
          ¬ v < 8) →
        (analyze_symptoms symptom_text lab_statuses).relevance =
          some "Moderate")) ∧
    (symptom_text ≠ "" →
      ¬((lab_statuses.lookup "hemoglobin").bind (·.status) = some "low" ∧
        FATIGUE_KEYWORDS.filter
          (fun kw => str_contains kw (py_lower symptom_text)) ≠ []) →
      FATIGUE_KEYWORDS.filter
          (fun kw => str_contains kw (py_lower symptom_text)) ≠ [] →
      analyze_symptoms symptom_text lab_statuses =
        ⟨some correlation_uncertain_summary, some "Low",
          some (join_sorted_unique (FATIGUE_KEYWORDS.filter
            (fun kw => str_contains kw (py_lower symptom_text))))⟩) ∧
    (symptom_text ≠ "" →
      FATIGUE_KEYWORDS.filter
          (fun kw => str_contains kw (py_lower symptom_text)) = [] →
      analyze_symptoms symptom_text lab_statuses =
        ⟨some no_rule_link_summary, some "Low", none⟩) := by
  unfold analyze_symptoms
  refine ⟨?_, ?_, ?_, ?_⟩
  · intro h
    rw [if_pos h]
  · intro hne hlow hkw
    rw [if_neg hne]
    dsimp only
    rw [if_pos ⟨hlow, hkw⟩]
    refine ⟨rfl, rfl, ?_, ?_⟩
    · rintro ⟨v, hv, hv8⟩
      rw [hv]
      simp [hv8]
    · intro hall
      rcases hval : (lab_statuses.lookup "hemoglobin").bind (·.value) with - | v
      · rfl
      · have := hall v hval
        simp [this]
  · intro hne hnot hkw
    rw [if_neg hne]
    dsimp only
    rw [if_neg hnot, if_pos hkw]
  · intro hne hkw
    rw [if_neg hne]
    dsimp only
    rw [if_neg (by simp [hkw]), if_neg (by simp [hkw])]

/-- Witness for C4: symptoms "I feel extremely tired and weak" with hemoglobin
status low and value 6 give relevance High. -/
theorem analyze_symptoms_rule_chain_witness :
    (analyze_symptoms "I feel extremely tired and weak"
      [("hemoglobin",
        ⟨some 6, some "g/dL", some "low", some 12, some 15, some "g/dL"⟩)]).relevance =
      some "High" := by
  have h := analyze_symptoms_rule_chain "I feel extremely tired and weak"
    [("hemoglobin",
      ⟨some 6, some "g/dL", some "low", some 12, some 15, some "g/dL"⟩)]
  exact (h.2.1 (by decide) (by decide) (by decide)).2.2.1
    ⟨6, by decide, by norm_num⟩

/-- C3 counterexample: when the primary extractor succeeds with empty text and
OCR also yields empty text, the method tag is `pdfplumber` — neither `none`
(as the claim requires for this input) nor the claim's `primary` literal. -/
theorem acquire_text_counterexample :
    (acquire_text (some "") "").method = "pdfplumber" ∧
    (acquire_text (some "") "").method ≠ "none" ∧
    (acquire_text (some "") "").method ≠ "primary" := by decide

/-- C3 (amended): the method tag is one of `pdfplumber`/`ocr`/`none`; it is
`ocr` iff the primary text is shorter than 40 characters and the OCR text is
strictly longer; `none` iff the primary extractor raised and OCR yielded empty
text; `pdfplumber` (the primary tag) otherwise. -/
theorem acquire_text_method_spec (primary_result : Option String)
    (ocr_text : String) :
    ((acquire_text primary_result ocr_text).method = "pdfplumber" ∨
     (acquire_text primary_result ocr_text).method = "ocr" ∨
     (acquire_text primary_result ocr_text).method = "none") ∧
    ((acquire_text primary_result ocr_text).method = "ocr" ↔
      (primary_result.getD "").length < 40 ∧
        ocr_text.length > (primary_result.getD "").length) ∧
    ((acquire_text primary_result ocr_text).method = "none" ↔
      primary_result = none ∧ ocr_text.length = 0) ∧
    ((acquire_text primary_result ocr_text).method = "pdfplumber" ↔
      primary_result ≠ none ∧
        ¬((primary_result.getD "").length < 40 ∧
          ocr_text.length > (primary_result.getD "").length)) ∧
    (acquire_text primary_result ocr_text).text =
      (if (primary_result.getD "").length < 40 ∧
          ocr_text.length > (primary_result.getD "").length then ocr_text
       else primary_result.getD "") := by
  cases primary_result with
  | none =>
    unfold acquire_text
    simp only [Option.getD]
    have h0 : ("" : String).length = 0 := rfl
    rw [h0]
    by_cases hocr : ocr_text.length > 0
    · rw [if_pos (by omega), if_pos hocr]
      refine ⟨Or.inr (Or.inl rfl), ?_, ?_, ?_, ?_⟩
      · simp_all
      · simp_all
        omega
      · simp_all
      · rw [if_pos ⟨by omega, hocr⟩]
    · rw [if_pos (by omega), if_neg hocr]
      refine ⟨Or.inr (Or.inr rfl), ?_, ?_, ?_, ?_⟩
      · simp_all
      · simp_all
      · simp_all
      · rw [if_neg (fun hc => hocr hc.2)]
  | some t =>
    unfold acquire_text
    simp only [Option.getD]
    by_cases h40 : t.length < 40
    · by_cases hocr : ocr_text.length > t.length
      · rw [if_pos h40, if_pos hocr]
        refine ⟨Or.inr (Or.inl rfl), ?_, ?_, ?_, ?_⟩
        · simp_all
        · simp_all
        · simp_all
        · rw [if_pos ⟨h40, hocr⟩]
      · rw [if_pos h40, if_neg hocr]
        refine ⟨Or.inl rfl, ?_, ?_, ?_, ?_⟩
        · simp_all
        · simp_all
        · simp_all
        · rw [if_neg (fun hc => hocr hc.2)]
    · rw [if_neg h40]
      refine ⟨Or.inl rfl, ?_, ?_, ?_, ?_⟩
      · simp_all
      · simp_all
      · simp_all
      · rw [if_neg (fun hc => h40 hc.1)]

/-- Witness for C3: a successful primary extraction of a short text with empty
OCR output keeps the `pdfplumber` tag. -/
theorem acquire_text_method_spec_witness :
    (acquire_text (some "short text") "").method = "pdfplumber" :=
  (acquire_text_method_spec (some "short text") "").2.2.2.1.mpr
    ⟨by decide, by decide⟩

/-- A decimal digit is not Python whitespace. -/
theorem digit_not_pyspace {c : Char} (h : c.isDigit = true) :
    isPySpace c = false := by
  have h1 : '0' ≤ c ∧ c ≤ '9' := by simpa [Char.isDigit] using h
  unfold isPySpace
  simp only [Bool.or_eq_false_iff, decide_eq_false_iff_not]
  refine ⟨⟨⟨⟨⟨?_, ?_⟩, ?_⟩, ?_⟩, ?_⟩, ?_⟩ <;> rintro rfl <;> revert h1 <;> decide

/-- A decimal digit is not a comma. -/
theorem digit_ne_comma {c : Char} (h : c.isDigit = true) : c ≠ ',' := by
  rintro rfl
  revert h
  decide

/-- `dropWhile` is the identity when no element satisfies the predicate. -/
theorem dropWhile_eq_self_of_all_false {p : Char → Bool} {l : List Char}
    (h : ∀ c ∈ l, p c = false) : l.dropWhile p = l := by
  cases l with
  | nil => rfl
  | cons a t =>
    rw [List.dropWhile_cons, if_neg]
    simp [h a (List.mem_cons_self a t)]

/-- `py_strip` is the identity on whitespace-free lists. -/
theorem py_strip_eq_self_of_no_space {l : List Char}
    (h : ∀ c ∈ l, isPySpace c = false) : py_strip l = l := by
  unfold py_strip strip_leading strip_trailing
  rw [dropWhile_eq_self_of_all_false h,
    dropWhile_eq_self_of_all_false (fun c hc => h c (List.mem_reverse.mp hc)),
    List.reverse_reverse]

/-- Comma-to-dot replacement is the identity on digit runs. -/
theorem map_comma_eq_self_of_digits {l : List Char}
    (h : ∀ c ∈ l, c.isDigit = true) :
    l.map (fun c => if c = ',' then '.' else c) = l := by
  induction l with
  | nil => rfl
  | cons a t ih =>
    rw [List.map_cons, if_neg (digit_ne_comma (h a (List.mem_cons_self a t))),
      ih (fun c hc => h c (List.mem_cons_of_mem a hc))]

/-- C8: parsing a numeric token with a comma decimal separator yields the same
rational as parsing the same token with a dot: for all digit runs `a`, `b`,
`safe_float` of `a ++ "," ++ b` equals `safe_float` of `a ++ "." ++ b`. -/
theorem safe_float_comma_dot (a b : List Char)
    (ha : ∀ c ∈ a, c.isDigit = true) (hb : ∀ c ∈ b, c.isDigit = true) :
    safe_float_list (a ++ ',' :: b) = safe_float_list (a ++ '.' :: b) := by
  have hws1 : ∀ c ∈ a ++ ',' :: b, isPySpace c = false := by
    intro c hc
    rcases List.mem_append.mp hc with hc | hc
    · exact digit_not_pyspace (ha c hc)
    · rcases List.mem_cons.mp hc with rfl | hc
      · decide
      · exact digit_not_pyspace (hb c hc)
  have hws2 : ∀ c ∈ a ++ '.' :: b, isPySpace c = false := by
    intro c hc
    rcases List.mem_append.mp hc with hc | hc
    · exact digit_not_pyspace (ha c hc)
    · rcases List.mem_cons.mp hc with rfl | hc
      · decide
      · exact digit_not_pyspace (hb c hc)
  simp only [safe_float_list]
  rw [py_strip_eq_self_of_no_space hws1, py_strip_eq_self_of_no_space hws2,
    List.map_append, List.map_append, List.map_cons, List.map_cons,
    map_comma_eq_self_of_digits ha, map_comma_eq_self_of_digits hb]
  norm_num

/-- Witness for C8: "9,5" and "9.5" parse to the same value, 19/2. -/
theorem safe_float_comma_dot_witness :
    safe_float (some "9,5") = safe_float (some "9.5") ∧
    safe_float (some "9.5") = some ((19 : ℚ) / 2) := by
  constructor
  · exact safe_float_comma_dot ['9'] ['5'] (by decide) (by decide)
  · show safe_float_list ['9', '.', '5'] = some ((19 : ℚ) / 2)
    have h1 : safe_float_list ['9', '.', '5'] =
        some (number_value false ['9'] ['5']) := rfl
    have h2 : digitsToNat ['9'] = 9 := rfl
    have h3 : digitsToNat ['5'] = 5 := rfl
    rw [h1]
    simp only [number_value, h2, h3, if_false, List.length_singleton]
    norm_num

/-- Characters of the space-collapsed list come from the input or are the
single space of a collapsed run. -/
theorem mem_collapse_spaces_aux {c : Char} {l : List Char} :
    ∀ {prev : Bool}, c ∈ collapse_spaces_aux prev l → c = ' ' ∨ c ∈ l := by
  induction l with
  | nil => intro prev h; simp [collapse_spaces_aux] at h
  | cons a t ih =>
    intro prev h
    simp only [collapse_spaces_aux] at h
    split_ifs at h with h1 h2
    · rcases ih h with rfl | hc
      · exact Or.inl rfl
      · exact Or.inr (List.mem_cons_of_mem a hc)
    · rcases List.mem_cons.mp h with rfl | h'
      · exact Or.inl rfl
      · rcases ih h' with rfl | hc
        · exact Or.inl rfl
        · exact Or.inr (List.mem_cons_of_mem a hc)
    · rcases List.mem_cons.mp h with rfl | h'
      · exact Or.inr (List.mem_cons_self _ _)
      · rcases ih h' with rfl | hc
        · exact Or.inl rfl
        · exact Or.inr (List.mem_cons_of_mem a hc)

/-- Characters of the newline-normalized list come from the input or are the
newline that replaced a carriage return. -/
theorem mem_normalize_newlines {c : Char} :
    ∀ {l : List Char}, c ∈ normalize_newlines l → c = '\n' ∨ c ∈ l := by
  intro l
  induction l using normalize_newlines.induct with
  | case1 => intro h; simp [normalize_newlines] at h
  | case2 rest ih =>
    intro h
    rw [normalize_newlines.eq_2 rest] at h
    rcases List.mem_cons.mp h with rfl | h'
    · exact Or.inl rfl
    · rcases ih h' with rfl | hc
      · exact Or.inl rfl
      · exact Or.inr (List.mem_cons_of_mem _ (List.mem_cons_of_mem _ hc))
  | case3 rest h1 ih =>
    intro h
    rw [normalize_newlines.eq_3 rest h1] at h
    rcases List.mem_cons.mp h with rfl | h'
    · exact Or.inl rfl
    · rcases ih h' with rfl | hc
      · exact Or.inl rfl
      · exact Or.inr (List.mem_cons_of_mem _ hc)
  | case4 c' rest h1 h2 ih =>
    intro h
    rw [normalize_newlines.eq_4 c' rest h1 h2] at h
    rcases List.mem_cons.mp h with rfl | h'
    · exact Or.inr (List.mem_cons_self _ _)
    · rcases ih h' with rfl | hc
      · exact Or.inl rfl
      · exact Or.inr (List.mem_cons_of_mem _ hc)

/-- Newline collapsing only removes characters. -/
theorem mem_collapse_newlines_aux {c : Char} {l : List Char} :
    ∀ {k : Nat}, c ∈ collapse_newlines_aux k l → c ∈ l := by
  induction l with
  | nil => intro k h; simp [collapse_newlines_aux] at h
  | cons a t ih =>
    intro k h
    simp only [collapse_newlines_aux] at h
    split_ifs at h with h1 h2
    · rcases List.mem_cons.mp h with rfl | h'
      · rw [h1]; exact List.mem_cons_self _ _
      · exact List.mem_cons_of_mem a (ih h')
    · exact List.mem_cons_of_mem a (ih h)
    · rcases List.mem_cons.mp h with rfl | h'
      · exact List.mem_cons_self _ _
      · exact List.mem_cons_of_mem a (ih h')

/-- `dropWhile` only removes characters. -/
theorem mem_of_mem_dropWhile {c : Char} {p : Char → Bool} :
    ∀ {l : List Char}, c ∈ l.dropWhile p → c ∈ l := by
  intro l
  induction l with
  | nil => intro h; simp at h
  | cons a t ih =>
    intro h
    rw [List.dropWhile_cons] at h
    split_ifs at h with h1
    · exact List.mem_cons_of_mem a (ih h)
    · exact h

/-- Stripping only removes characters. -/
theorem mem_of_mem_py_strip {c : Char} {l : List Char}
    (h : c ∈ py_strip l) : c ∈ l := by
  unfold py_strip strip_trailing strip_leading at h
  rw [List.mem_reverse] at h
  have h2 := mem_of_mem_dropWhile h
  rw [List.mem_reverse] at h2
  exact mem_of_mem_dropWhile h2

/-- Nul replacement leaves no nul byte behind. -/
theorem replace_nul_no_nul (l : List Char) : '\x00' ∉ replace_nul l := by
  intro h
  obtain ⟨d, -, hd⟩ := List.mem_map.mp h
  by_cases hdn : d = '\x00'
  · simp [hdn] at hd
  · simp [hdn] at hd

/-- Space collapsing leaves no tab behind. -/
theorem collapse_spaces_aux_no_tab (l : List Char) :
    ∀ (prev : Bool), '\t' ∉ collapse_spaces_aux prev l := by
  induction l with
  | nil => intro prev h; simp [collapse_spaces_aux] at h
  | cons a t ih =>
    intro prev h
    simp only [collapse_spaces_aux] at h
    split_ifs at h with h1 h2
    · exact ih true h
    · rcases List.mem_cons.mp h with he | h'
      · exact absurd he (by decide)
      · exact ih true h'
    · rcases List.mem_cons.mp h with he | h'
      · rw [he] at h1; exact h1 (Or.inr rfl)
      · exact ih false h'

/-- Newline normalization leaves no carriage return behind. -/
theorem normalize_newlines_no_cr :
    ∀ (l : List Char), '\r' ∉ normalize_newlines l := by
  intro l
  induction l using normalize_newlines.induct with
  | case1 => simp [normalize_newlines]
  | case2 rest ih =>
    rw [normalize_newlines.eq_2 rest]
    intro h
    rcases List.mem_cons.mp h with he | h'
    · exact absurd he (by decide)
    · exact ih h'
  | case3 rest h1 ih =>
    rw [normalize_newlines.eq_3 rest h1]
    intro h
    rcases List.mem_cons.mp h with he | h'
    · exact absurd he (by decide)
    · exact ih h'
  | case4 c' rest h1 h2 ih =>
    rw [normalize_newlines.eq_4 c' rest h1 h2]
    intro h
    rcases List.mem_cons.mp h with he | h'
    · rw [he] at h2; exact h2 rfl
    · exact ih h'

/-- The space-collapsed output satisfies the no-adjacent-space state
predicate for the same starting flag. -/
theorem spacedOk_collapse_spaces_aux (l : List Char) :
    ∀ (prev : Bool), spacedOk prev (collapse_spaces_aux prev l) = true := by
  induction l with
  | nil => intro prev; rfl
  | cons a t ih =>
    intro prev
    simp only [collapse_spaces_aux]
    split_ifs with h1 h2
    · rw [h2]
      exact ih true
    · have hp : prev = false := by
        revert h2; cases prev <;> simp
      simp only [spacedOk, hp, Bool.false_and, Bool.not_false, Bool.true_and]
      have hsp : (' ' == ' ') = true := by decide
      rw [hsp]
      exact ih true
    · have ha : (a == ' ') = false := by
        have : a ≠ ' ' := fun he => h1 (Or.inl he)
        simpa using this
      simp only [spacedOk, ha, Bool.and_false, Bool.not_false, Bool.true_and]
      exact ih false

/-- The flag of `spacedOk` can always be lowered to `false`. -/
theorem spacedOk_false_of_spacedOk {l : List Char} :
    ∀ {b : Bool}, spacedOk b l = true → spacedOk false l = true := by
  cases l with
  | nil => intro b h; rfl
  | cons a t =>
    intro b h
    simp only [spacedOk, Bool.and_eq_true] at h ⊢
    exact ⟨by simp, h.2⟩

/-- `spacedOk` restricts to the left part of an append. -/
theorem spacedOk_append_left {l₁ l₂ : List Char} :
    ∀ {b : Bool}, spacedOk b (l₁ ++ l₂) = true → spacedOk b l₁ = true := by
  induction l₁ with
  | nil => intro b h; rfl
  | cons a t ih =>
    intro b h
    simp only [List.cons_append, spacedOk, Bool.and_eq_true] at h ⊢
    exact ⟨h.1, ih h.2⟩

/-- `spacedOk` survives dropping a prefix, with the flag lowered. -/
theorem spacedOk_dropWhile {p : Char → Bool} {l : List Char} :
    ∀ {b : Bool}, spacedOk b l = true →
      spacedOk false (l.dropWhile p) = true := by
  induction l with
  | nil => intro b h; rfl
  | cons a t ih =>
    intro b h
    simp only [spacedOk, Bool.and_eq_true] at h
    rw [List.dropWhile_cons]
    split_ifs with h1
    · exact ih h.2
    · simp only [spacedOk, Bool.and_eq_true]
      exact ⟨by simp, h.2⟩

/-- Newline normalization preserves the no-adjacent-space predicate. -/
theorem spacedOk_normalize_newlines :
    ∀ (l : List Char), ∀ {b : Bool}, spacedOk b l = true →
      spacedOk b (normalize_newlines l) = true := by
  intro l
  induction l using normalize_newlines.induct with
  | case1 => intro b h; exact h
  | case2 rest ih =>
    intro b h
    rw [normalize_newlines.eq_2 rest]
    simp only [spacedOk, Bool.and_eq_true] at h ⊢
    refine ⟨by simp, ?_⟩
    have h2 := h.2.2
    have he : ('\n' == ' ') = false := by decide
    rw [he] at h2 ⊢
    exact ih h2
  | case3 rest h1 ih =>
    intro b h
    rw [normalize_newlines.eq_3 rest h1]
    simp only [spacedOk, Bool.and_eq_true] at h ⊢
    refine ⟨by simp, ?_⟩
    have h2 := h.2
    have hr : ('\r' == ' ') = false := by decide
    have he : ('\n' == ' ') = false := by decide
    rw [hr] at h2
    rw [he]
    exact ih h2
  | case4 c' rest h1 h2 ih =>
    intro b h
    rw [normalize_newlines.eq_4 c' rest h1 h2]
    simp only [spacedOk, Bool.and_eq_true] at h ⊢
    exact ⟨h.1, ih h.2⟩

/-- Newline collapsing preserves the no-adjacent-space predicate (the flag
drops to `false` once a run is being consumed). -/
theorem spacedOk_collapse_newlines_aux (l : List Char) :
    ∀ (k : Nat) {b : Bool}, spacedOk b l = true →
      spacedOk (if k = 0 then b else false)
        (collapse_newlines_aux k l) = true := by
  induction l with
  | nil => intro k b h; rfl
  | cons a t ih =>
    intro k b h
    simp only [spacedOk, Bool.and_eq_true] at h
    simp only [collapse_newlines_aux]
    by_cases h1 : a = '\n'
    · rw [if_pos h1]
      by_cases h2 : k < 2
      · rw [if_pos h2]
        simp only [spacedOk, Bool.and_eq_true]
        constructor
        · simp
        · have hrec := ih (k + 1) (b := a == ' ') h.2
          rw [if_neg (Nat.succ_ne_zero k)] at hrec
          have he : ('\n' == ' ') = false := by decide
          rw [he]
          exact hrec
      · rw [if_neg h2]
        have hk : ¬ k = 0 := by omega
        rw [if_neg hk]
        have hrec := ih (k + 1) (b := a == ' ') h.2
        rw [if_neg (Nat.succ_ne_zero k)] at hrec
        exact hrec
    · rw [if_neg h1]
      simp only [spacedOk, Bool.and_eq_true]
      constructor
      · by_cases hk : k = 0
        · rw [if_pos hk]
          exact h.1
        · rw [if_neg hk]
          simp
      · have hrec := ih 0 (b := a == ' ') h.2
        rw [if_pos rfl] at hrec
        exact hrec

/-- A smaller newline-run counter only weakens `nlOk`. -/
theorem nlOk_mono {l : List Char} :
    ∀ {j k : Nat}, j ≤ k → nlOk k l = true → nlOk j l = true := by
  induction l with
  | nil => intro j k hjk h; rfl
  | cons a t ih =>
    intro j k hjk h
    simp only [nlOk] at h ⊢
    split_ifs at h ⊢ with h1
    · simp only [Bool.and_eq_true, decide_eq_true_eq] at h ⊢
      exact ⟨by omega, ih (by omega) h.2⟩
    · exact h

/-- The newline-collapsed output has all runs bounded by two. -/
theorem nlOk_collapse_newlines_aux (l : List Char) :
    ∀ (k : Nat), nlOk (min k 2) (collapse_newlines_aux k l) = true := by
  induction l with
  | nil => intro k; rfl
  | cons a t ih =>
    intro k
    simp only [collapse_newlines_aux]
    by_cases h1 : a = '\n'
    · rw [if_pos h1]
      by_cases h2 : k < 2
      · rw [if_pos h2]
        have hm : min k 2 = k := by omega
        rw [hm]
        simp only [nlOk, if_true]
        simp only [Bool.and_eq_true, decide_eq_true_eq]
        constructor
        · exact h2
        · have hrec := ih (k + 1)
          rw [show min (k + 1) 2 = k + 1 by omega] at hrec
          exact hrec
      · rw [if_neg h2]
        have hrec := ih (k + 1)
        rw [show min (k + 1) 2 = 2 by omega] at hrec
        rw [show min k 2 = 2 by omega]
        exact hrec
    · rw [if_neg h1]
      simp only [nlOk, if_neg h1]
      have hrec := ih 0
      rw [show min 0 2 = 0 by omega] at hrec
      exact hrec

/-- `nlOk` restricts to the left part of an append. -/
theorem nlOk_append_left {l₁ l₂ : List Char} :
    ∀ {k : Nat}, nlOk k (l₁ ++ l₂) = true → nlOk k l₁ = true := by
  induction l₁ with
  | nil => intro k h; rfl
  | cons a t ih =>
    intro k h
    simp only [List.cons_append, nlOk] at h ⊢
    split_ifs at h ⊢ with h1
    · simp only [Bool.and_eq_true, decide_eq_true_eq] at h ⊢
      exact ⟨h.1, ih h.2⟩
    · exact ih h

/-- `nlOk 0` survives dropping a prefix. -/
theorem nlOk_dropWhile {p : Char → Bool} {l : List Char} :
    ∀ {k : Nat}, nlOk k l = true → nlOk 0 (l.dropWhile p) = true := by
  induction l with
  | nil => intro k h; rfl
  | cons a t ih =>
    intro k h
    simp only [nlOk] at h
    rw [List.dropWhile_cons]
    split_ifs with hp
    · split_ifs at h with h1
      · simp only [Bool.and_eq_true] at h
        exact ih h.2
      · exact ih h
    · simp only [nlOk]
      split_ifs at h ⊢ with h1
      · simp only [Bool.and_eq_true, decide_eq_true_eq] at h ⊢
        exact ⟨by omega, nlOk_mono (by omega) h.2⟩
      · exact h

/-- Nul replacement is the identity when no nul byte is present. -/
theorem replace_nul_eq_self : ∀ {l : List Char}, '\x00' ∉ l →
    replace_nul l = l := by
  intro l
  induction l with
  | nil => intro h; rfl
  | cons a t ih =>
    intro h
    simp only [replace_nul, List.map_cons]
    have hne : a ≠ '\x00' := by
      rintro rfl
      exact h (List.mem_cons_self _ _)
    rw [if_neg hne]
    have := ih (fun hm => h (List.mem_cons_of_mem a hm))
    simp only [replace_nul] at this
    rw [this]

/-- Space collapsing is the identity on tab-free lists already in the
no-adjacent-space state. -/
theorem collapse_spaces_aux_eq_self : ∀ {l : List Char} {prev : Bool},
    '\t' ∉ l → spacedOk prev l = true → collapse_spaces_aux prev l = l := by
  intro l
  induction l with
  | nil => intro prev _ _; rfl
  | cons a t ih =>
    intro prev htab hsp
    simp only [spacedOk, Bool.and_eq_true] at hsp
    simp only [collapse_spaces_aux]
    split_ifs with h1 h2
    · exfalso
      rcases h1 with ha | ha
      · rw [ha] at hsp
        rw [h2] at hsp
        simp at hsp
      · exact htab (ha ▸ List.mem_cons_self _ _)
    · rcases h1 with ha | ha
      · subst ha
        have he : (' ' == ' ') = true := by decide
        rw [he] at hsp
        rw [ih (fun hm => htab (List.mem_cons_of_mem _ hm)) hsp.2]
      · subst ha
        exact absurd (List.mem_cons_self _ _) htab
    · have ha : (a == ' ') = false := by
        have : a ≠ ' ' := fun he => h1 (Or.inl he)
        simpa using this
      rw [ha] at hsp
      rw [ih (fun hm => htab (List.mem_cons_of_mem _ hm)) hsp.2]

/-- Newline normalization is the identity when no carriage return is
present. -/
theorem normalize_newlines_eq_self :
    ∀ {l : List Char}, '\r' ∉ l → normalize_newlines l = l := by
  intro l
  induction l using normalize_newlines.induct with
  | case1 => intro h; rfl
  | case2 rest ih => intro h; exact absurd (List.mem_cons_self _ _) h
  | case3 rest h1 ih => intro h; exact absurd (List.mem_cons_self _ _) h
  | case4 c' rest h1 h2 ih =>
    intro h
    rw [normalize_newlines.eq_4 c' rest h1 h2,
      ih (fun hm => h (List.mem_cons_of_mem c' hm))]

/-- Newline collapsing is the identity when all runs are bounded by two. -/
theorem collapse_newlines_aux_eq_self : ∀ {l : List Char} {k : Nat},
    nlOk k l = true → collapse_newlines_aux k l = l := by
  intro l
  induction l with
  | nil => intro k h; rfl
  | cons a t ih =>
    intro k h
    simp only [nlOk] at h
    simp only [collapse_newlines_aux]
    split_ifs with h1 h2
    · rw [if_pos h1] at h
      simp only [Bool.and_eq_true] at h
      rw [h1, ih h.2]
    · exfalso
      rw [if_pos h1] at h
      simp only [Bool.and_eq_true, decide_eq_true_eq] at h
      exact h2 h.1
    · rw [if_neg h1] at h
      rw [ih h]

/-- Dropping a satisfying prefix twice is the same as once. -/
theorem dropWhile_dropWhile (p : Char → Bool) (l : List Char) :
    (l.dropWhile p).dropWhile p = l.dropWhile p := by
  induction l with
  | nil => rfl
  | cons a t ih =>
    rw [List.dropWhile_cons]
    split_ifs with h1
    · exact ih
    · rw [List.dropWhile_cons, if_neg h1]

/-- Trailing-strip is idempotent. -/
theorem strip_trailing_strip_trailing (l : List Char) :
    strip_trailing (strip_trailing l) = strip_trailing l := by
  unfold strip_trailing
  rw [List.reverse_reverse, dropWhile_dropWhile]

/-- The head of a leading-stripped list is not whitespace. -/
theorem head_strip_leading_not_space : ∀ {l : List Char} {c : Char},
    (strip_leading l).head? = some c → isPySpace c = false := by
  intro l
  induction l with
  | nil => intro c h; simp [strip_leading] at h
  | cons a t ih =>
    intro c h
    unfold strip_leading at h ih
    rw [List.dropWhile_cons] at h
    split_ifs at h with h1
    · exact ih h
    · rw [List.head?_cons, Option.some.injEq] at h
      subst h
      simpa using h1

/-- A list is its trailing-strip followed by the dropped whitespace tail. -/
theorem strip_trailing_append_exists (l : List Char) :
    ∃ r, l = strip_trailing l ++ r := by
  refine ⟨(l.reverse.takeWhile isPySpace).reverse, ?_⟩
  have h := congrArg List.reverse
    (List.takeWhile_append_dropWhile (p := isPySpace) (l := l.reverse))
  rw [List.reverse_append, List.reverse_reverse] at h
  exact h.symm

/-- Leading-strip is a no-op after a full strip. -/
theorem strip_leading_of_strip (l : List Char) :
    strip_leading (strip_trailing (strip_leading l)) =
      strip_trailing (strip_leading l) := by
  rcases hst : strip_trailing (strip_leading l) with - | ⟨c, u⟩
  · rfl
  · obtain ⟨r, hr⟩ := strip_trailing_append_exists (strip_leading l)
    rw [hst] at hr
    have hc : isPySpace c = false := by
      apply head_strip_leading_not_space (l := l)
      rw [hr]
      rfl
    unfold strip_leading
    rw [List.dropWhile_cons, if_neg (by simp [hc])]

/-- `py_strip` is idempotent. -/
theorem py_strip_py_strip (l : List Char) :
    py_strip (py_strip l) = py_strip l := by
  unfold py_strip
  rw [strip_leading_of_strip, strip_trailing_strip_trailing]

/-- The no-adjacent-space state survives a full strip. -/
theorem spacedOk_py_strip {l : List Char} (h : spacedOk false l = true) :
    spacedOk false (py_strip l) = true := by
  unfold py_strip
  obtain ⟨r, hr⟩ := strip_trailing_append_exists (strip_leading l)
  have h1 : spacedOk false (strip_leading l) = true := spacedOk_dropWhile h
  rw [hr] at h1
  exact spacedOk_append_left h1

/-- The bounded-newline-run state survives a full strip. -/
theorem nlOk_py_strip {l : List Char} (h : nlOk 0 l = true) :
    nlOk 0 (py_strip l) = true := by
  unfold py_strip
  obtain ⟨r, hr⟩ := strip_trailing_append_exists (strip_leading l)
  have h1 : nlOk 0 (strip_leading l) = true := nlOk_dropWhile h
  rw [hr] at h1
  exact nlOk_append_left h1

/-- `clean_text_list` is idempotent. -/
theorem clean_text_list_idem (l : List Char) :
    clean_text_list (clean_text_list l) = clean_text_list l := by
  rcases eq_or_ne (clean_text_list l) [] with hnil | hne
  · rw [hnil]
    rfl
  · have h0 : l ≠ [] := by
      rintro rfl
      exact hne rfl
    rw [clean_text_list, if_neg hne]
    have hctl : clean_text_list l = py_strip (collapse_newlines
        (normalize_newlines (collapse_spaces (replace_nul l)))) := by
      rw [clean_text_list, if_neg h0]
    rw [hctl]
    set z := collapse_newlines (normalize_newlines
      (collapse_spaces (replace_nul l))) with hz
    have hnul : '\x00' ∉ py_strip z := fun hc =>
      (fun hm =>
        match mem_normalize_newlines
          (mem_collapse_newlines_aux hm) with
        | Or.inl he => absurd he (by decide)
        | Or.inr hm2 =>
          match mem_collapse_spaces_aux hm2 with
          | Or.inl he => absurd he (by decide)
          | Or.inr hm3 => replace_nul_no_nul l hm3)
      (mem_of_mem_py_strip hc)
    have htab : '\t' ∉ py_strip z := fun hc =>
      (fun hm =>
        match mem_normalize_newlines
          (mem_collapse_newlines_aux hm) with
        | Or.inl he => absurd he (by decide)
        | Or.inr hm2 => collapse_spaces_aux_no_tab (replace_nul l) false hm2)
      (mem_of_mem_py_strip hc)
    have hcr : '\r' ∉ py_strip z := fun hc =>
      (fun hm => normalize_newlines_no_cr _
        (mem_collapse_newlines_aux hm))
      (mem_of_mem_py_strip hc)
    have hsp : spacedOk false (py_strip z) = true := by
      apply spacedOk_py_strip
      have h1 := spacedOk_collapse_spaces_aux (replace_nul l) false
      have h2 := spacedOk_normalize_newlines _ h1
      have h3 := spacedOk_collapse_newlines_aux
        (normalize_newlines (collapse_spaces (replace_nul l))) 0 h2
      rw [if_pos rfl] at h3
      exact h3
    have hnl : nlOk 0 (py_strip z) = true := by
      apply nlOk_py_strip
      have h4 := nlOk_collapse_newlines_aux
        (normalize_newlines (collapse_spaces (replace_nul l))) 0
      rw [show min 0 2 = 0 by omega] at h4
      exact h4
    rw [replace_nul_eq_self hnul]
    rw [show collapse_spaces (py_strip z) = py_strip z from
      collapse_spaces_aux_eq_self htab hsp]
    rw [normalize_newlines_eq_self hcr]
    rw [show collapse_newlines (py_strip z) = py_strip z from
      collapse_newlines_aux_eq_self hnl]
    exact py_strip_py_strip z

/-- C9: text normalization is idempotent: `clean_text` applied to the output
of `clean_text` is a no-op. -/
theorem clean_text_idempotent (s : String) :
    clean_text (clean_text s) = clean_text s :=
  congrArg String.mk (clean_text_list_idem s.data)
